import Mathlib

/-!
Shallow embedding of the blog GraphQL schema (`src/schema.js`) in Lean 4.

Modelling choices, faithful to the JavaScript source:
* a JS string is its sequence of UTF-16 code units (`List Nat`); the
  platform's `toLowerCase`/`toUpperCase` are modelled on the ASCII range,
  which is the range the repository's usernames exercise;
* a JS `Date` is its epoch value in milliseconds (`Int`); `new Date(t)`
  followed by `.getTime()` is the identity on that value;
* the Users store (`UsersMap`, a JS object keyed by lowercased username)
  is an association list in insertion order, with first-match lookup;
* resolvers that mutate the live `PostsList` (the sorting reads) and the
  mutations are written in explicit state-passing style: they return the
  collection as it stands after the call;
* the sort comparator `(a, b) => bTime - aTime` reads each key as
  `new Date(x.date['$date']).getTime()`: an epoch number when the `date`
  property is the loader's wrapper object `{$date: ...}`, but `NaN` when
  it is a JS `Date` as `createPost` stores (its `['$date']` is
  `undefined`); ECMAScript's `SortCompare` turns a `NaN` comparator
  result into `+0`, mandates a stable sort, and fully determines the
  result whenever the comparator is consistent on the collection's
  elements (all keys numeric, or any two-element collection) — the
  embedding's stable merge sort realises exactly that order there;
* `Array.prototype.slice(0, end)` with a possibly negative `end` clamps a
  negative end as an offset from the end of the array;
* a thrown `Error` is the `.error` case of `Except`, carrying the message.

The data files `./data/posts`, `./data/users`, `./data/comments` are not
part of the repository's sources; per the spec the Data Store is an
external collaborator, so the collections appear here as parameters.
-/

/-- A JS string as its UTF-16 code units. -/
abbrev JStr := List Nat

/-- ASCII fragment of the platform's per-character lower-casing:
uppercase `A`..`Z` (codes 65..90) shift down into `a`..`z`. -/
def lowerCode (c : Nat) : Nat := if 65 ≤ c ∧ c ≤ 90 then c + 32 else c

/-- ASCII fragment of the platform's per-character upper-casing. -/
def upperCode (c : Nat) : Nat := if 97 ≤ c ∧ c ≤ 122 then c - 32 else c

/-- `String.prototype.toLowerCase`. -/
def toLowerCase (s : JStr) : JStr := s.map lowerCode

/-- `String.prototype.toUpperCase`. -/
def toUpperCase (s : JStr) : JStr := s.map upperCode

/-- The `User` entity (scalar fields relevant to the resolvers). -/
structure UserRec where
  id : Int
  name : JStr
  username : JStr
  email : Option JStr
  deriving DecidableEq, Repr

/-- The `Post` entity. `date` holds the epoch value of the post's date
property when one is present (absent on records that never got one), and
`dateWrapped` records that property's JS shape: `true` for the loader's
wrapper object `{$date: ...}` whose epoch the sort comparator reads,
`false` for a JS `Date` as stored by `createPost` (on which the
comparator's `['$date']` access yields `undefined`). `category` holds
the enum's wire value when present. -/
structure PostRec where
  id : Int
  userId : Int
  title : JStr
  body : JStr
  category : Option JStr
  likeCount : Option Int
  date : Option Int
  dateWrapped : Bool
  deriving DecidableEq, Repr

/-- The `Comment` entity. -/
structure CommentRec where
  id : Int
  postId : Int
  name : JStr
  email : JStr
  body : JStr
  deriving DecidableEq, Repr

/-- The `UsersMap` JS object: insertion-ordered key/value pairs. -/
abbrev UsersMap := List (JStr × UserRec)

/-- Property read `m[k]` on the Users object: first pair whose key is `k`. -/
def lookupKey (k : JStr) : UsersMap → Option UserRec
  | [] => none
  | kv :: rest => if kv.1 = k then some kv.2 else lookupKey k rest

/-- The mutable Data Store the executors share: `PostsList` and `UsersMap`
(`CommentsList` is read-only and passed separately where needed). -/
structure Store where
  posts : List PostRec
  users : UsersMap
  deriving DecidableEq, Repr

/-- The post's stored date as an epoch value (`0` when the record has no
date): the "date" the specification's maximality and ordering talk is
about. The comparator's actual key is `sortKey`, which differs from it on
`createPost`-created posts. -/
def postDate (p : PostRec) : Int := p.date.getD 0

/-- The comparator's per-post key `new Date(x.date['$date']).getTime()`:
for the loader's wrapped shape, the stored epoch; for a post whose `date`
property is a JS `Date` — as `createPost` stores — `x.date['$date']` is
`undefined` and the key is `NaN`, modelled as `none`. (A post with no
`date` property at all would make the comparator throw; no claim touches
such a collection, and the embedding folds that case into `none` as
well.) -/
def sortKey (p : PostRec) : Option Int :=
  match p.date, p.dateWrapped with
  | some e, true => some e
  | _, _ => none

/-- One comparator step of `PostsList.sort((a, b) => bTime - aTime)`
under ECMAScript's `SortCompare`, which turns a `NaN` comparator result
into `+0`: `a` may stay before `b` exactly when the comparator result is
not positive — always, when either key is `NaN`. -/
def sortBefore (a b : PostRec) : Bool :=
  match sortKey a, sortKey b with
  | some ka, some kb => kb ≤ ka
  | _, _ => true

/-- The live sort `PostsList.sort((a, b) => bTime - aTime)`: a stable
merge sort driven by the source comparator. ECMAScript mandates
stability, and whenever the comparator is consistent on the collection's
elements this is exactly the order the program produces; elsewhere the
engine's order is implementation-defined and the theorems below do not
rely on this function's choice. -/
def sortPosts (l : List PostRec) : List PostRec := l.mergeSort sortBefore

/-- The descending-by-stored-date comparison the specification describes,
to be compared against the comparator the source actually runs
(`sortBefore`): the two agree exactly on posts with numeric sort keys. -/
def descByDate (a b : PostRec) : Bool := postDate b ≤ postDate a

/-- `Array.prototype.slice(0, stop)` with an `Int` stop index: a negative
stop counts from the end of the array, clamped at zero. -/
def jsSliceTo (l : List α) (stop : Int) : List α :=
  if stop < 0 then l.take (l.length - (-stop).toNat) else l.take stop.toNat

/-- A JS value, as far as the truthiness tests in the schema observe it. -/
inductive JSVal where
  | undef
  | null
  | boolv (b : Bool)
  | num (n : Int)
  | str (s : JStr)
  | array
  | object
  deriving DecidableEq, Repr

/-- JS truthiness: `undefined`, `null`, `false`, `0` and `""` are falsy;
every array or object reference is truthy. -/
def truthy : JSVal → Bool
  | .undef => false
  | .null => false
  | .boolv b => b
  | .num n => n != 0
  | .str s => s != []
  | .array => true
  | .object => true

/-- The two concrete variants of the `HasAuthor` interface. -/
inductive HasAuthorType where
  | post
  | comment
  deriving DecidableEq, Repr

/-- A candidate record as `resolveType` inspects it: only its `title` and
`replies` properties are read (`.undef` stands for an absent property). -/
structure Candidate where
  title : JSVal
  replies : JSVal
  deriving DecidableEq, Repr

/-- `HasAuthor.resolveType`: `if (obj.title) return Post; else if
(obj.replies) return Comment; else return null`. -/
def resolveType (obj : Candidate) : Option HasAuthorType :=
  if truthy obj.title then some .post
  else if truthy obj.replies then some .comment
  else none

/-- `Post.timestamp` resolver: `if (post.date) return new
Date(post.date.getTime()); else return null`. A `Date` object is always
truthy, and `new Date(d.getTime())` carries the same epoch as `d`. -/
def timestampResolve (post : PostRec) : Option Int :=
  match post.date with
  | some d => some d
  | none => none

/-- `Post.comments` resolver: filter `CommentsList` to this post's id,
then `if (limit >= 0) return cList.slice(0, limit); return cList`
(an absent `limit` is `undefined`, and `undefined >= 0` is false). -/
def commentsResolve (commentsList : List CommentRec) (post : PostRec)
    (limit : Option Int) : List CommentRec :=
  let cList := commentsList.filter fun c => post.id == c.postId
  match limit with
  | some l => if 0 ≤ l then jsSliceTo cList l else cList
  | none => cList

/-- `Query.user` resolver: `UsersMap[username.toLowerCase()]`. -/
def userResolve (users : UsersMap) (username : JStr) : Option UserRec :=
  lookupKey (toLowerCase username) users

/-- `Query.latestPost` resolver: sorts the live `PostsList` in place and
returns its first element; the pair is (returned value, `PostsList` as it
stands after the call). -/
def latestPostResolve (posts : List PostRec) :
    Option PostRec × List PostRec :=
  let sorted := sortPosts posts
  (sorted.head?, sorted)

/-- `Query.recentPosts` resolver: sorts the live `PostsList` in place and
returns `PostsList.slice(0, count)`; the pair is (returned list,
`PostsList` after the call). -/
def recentPostsResolve (posts : List PostRec) (count : Int) :
    List PostRec × List PostRec :=
  let sorted := sortPosts posts
  (jsSliceTo sorted count, sorted)

/-- Arguments of `Mutation.createPost`. -/
structure PostArgs where
  title : JStr
  body : JStr
  category : Option JStr
  author : JStr
  deriving DecidableEq, Repr

/-- Arguments of `Mutation.createUser`. -/
structure UserArgs where
  username : JStr
  name : JStr
  email : Option JStr
  deriving DecidableEq, Repr

/-- `Mutation.createPost` resolver (`now` is the wall clock read by
`new Date()`): look the author up by lowercased username, throw
`'No such author: ' + post.author` when the lookup is falsy, otherwise
build the post with `userId` from the resolved user, `id` one more than
the current `PostsList` size and `date` the current time, and push it.
The returned store is the Data Store as it stands after the call. -/
def createPost (st : Store) (args : PostArgs) (now : Int) :
    Except JStr PostRec × Store :=
  match lookupKey (toLowerCase args.author) st.users with
  | none => (.error args.author, st)
  | some user =>
    let post : PostRec :=
      { title := args.title, body := args.body, category := args.category
        userId := user.id, id := (st.posts.length : Int) + 1
        likeCount := none, date := some now, dateWrapped := false }
    (.ok post, { st with posts := st.posts ++ [post] })

/-- `Mutation.createUser` resolver: throw `'User already exists: ' +
user.username` when the lowercased username already keys a user,
otherwise assign `id` one more than the current user count and insert
under the lowercased username key. -/
def createUser (st : Store) (args : UserArgs) :
    Except JStr UserRec × Store :=
  match lookupKey (toLowerCase args.username) st.users with
  | some _ => (.error args.username, st)
  | none =>
    let user : UserRec :=
      { username := args.username, name := args.name, email := args.email
        id := (st.users.length : Int) + 1 }
    (.ok user, { st with users := st.users ++ [(toLowerCase args.username, user)] })

/-- Runs `createPost` on each argument/clock pair in order over a fixed
Users store, threading the live `PostsList`; yields the final `PostsList`
when every call succeeds, and `none` as soon as one call throws. -/
def createPostsSeq (users : UsersMap) :
    List (PostArgs × Int) → List PostRec → Option (List PostRec)
  | [], posts => some posts
  | (a, t) :: rest, posts =>
    match createPost { posts := posts, users := users } a t with
    | (Except.ok _, st) => createPostsSeq users rest st.posts
    | (Except.error _, _) => none

/-- One call to either mutation resolver. -/
inductive MutationCall where
  | mkUser (args : UserArgs)
  | mkPost (args : PostArgs) (now : Int)
  deriving DecidableEq, Repr

/-- The Data Store as it stands after one mutation call (a call that
throws leaves the store as it was at entry). -/
def applyMutation (st : Store) : MutationCall → Store
  | .mkUser a => (createUser st a).2
  | .mkPost a t => (createPost st a t).2

/-- The Data Store after a sequence of mutation calls. -/
def applyMutations (st : Store) : List MutationCall → Store
  | [] => st
  | c :: rest => applyMutations (applyMutation st c) rest

/-- Invariant: every key of the Users mapping is the lower-cased form of
the username stored under it. -/
def usersWellKeyed (st : Store) : Prop :=
  ∀ kv ∈ st.users, kv.1 = toLowerCase kv.2.username

/-- The user `alice` of the spec's concrete scenarios. -/
def demoUser : UserRec :=
  { id := 1, name := [97], username := [97, 108, 105, 99, 101], email := none }

/-- A Users store holding `alice` under her lower-cased username. -/
def demoUsers : UsersMap := [([97, 108, 105, 99, 101], demoUser)]

/-- `createPost` arguments naming the author as `Alice` (mixed case). -/
def demoPostArgs : PostArgs :=
  { title := [84], body := [66], category := none
    author := [65, 108, 105, 99, 101] }

/-- `createUser` arguments re-registering `Alice` (mixed case). -/
def demoUserArgs : UserArgs :=
  { username := [65, 108, 105, 99, 101], name := [97], email := none }

/-- The post `createPost` builds from `demoPostArgs` over `demoUsers`
with the clock at `5`, starting from an empty `PostsList`. -/
def demoCreatedPost : PostRec :=
  { title := [84], body := [66], category := none
    userId := 1, id := 1, likeCount := none, date := some 5
    dateWrapped := false }

/-- A Comments collection: three comments on post 1, one on post 2. -/
def demoComments : List CommentRec :=
  [ { id := 1, postId := 1, name := [110], email := [101], body := [98] },
    { id := 2, postId := 2, name := [110], email := [101], body := [98] },
    { id := 3, postId := 1, name := [110], email := [101], body := [98] },
    { id := 4, postId := 1, name := [110], email := [101], body := [98] } ]

/-- The spec's concrete scenario: posts with dates 2021-01-01,
2023-05-01 and 2022-06-01 (epoch milliseconds), ids 1, 2, 3. -/
def scenarioPosts : List PostRec :=
  [ { id := 1, userId := 1, title := [97], body := [98], category := none
      likeCount := none, date := some 1609459200000, dateWrapped := true },
    { id := 2, userId := 1, title := [97], body := [98], category := none
      likeCount := none, date := some 1682899200000, dateWrapped := true },
    { id := 3, userId := 1, title := [97], body := [98], category := none
      likeCount := none, date := some 1654041600000, dateWrapped := true } ]

/-- A post as `createPost` stores it: its `date` property is a JS `Date`
(epoch 0), so the sort comparator's key for it is `NaN`. -/
def cexCreatedPost : PostRec :=
  { id := 10, userId := 1, title := [99], body := [98], category := none
    likeCount := none, date := some 0, dateWrapped := false }

/-- A fixture post carrying the loader's wrapped date, epoch 9999 — the
maximal date of `cexPosts`. -/
def cexWrappedPost : PostRec :=
  { id := 11, userId := 1, title := [99], body := [98], category := none
    likeCount := none, date := some 9999, dateWrapped := true }

/-- A live `PostsList` holding one `createPost`-created post followed by
one fixture post. On its single pair the comparator returns `+0` both
ways (the created post's key is `NaN`), so the comparator is consistent
here and ECMAScript fully determines the stable result: the original
order is kept. -/
def cexPosts : List PostRec := [cexCreatedPost, cexWrappedPost]

/-! ## Helper lemmas -/

theorem lowerCode_upperCode (c : Nat) : lowerCode (upperCode c) = lowerCode c := by
  unfold lowerCode upperCode
  repeat' split
  all_goals omega

theorem toLowerCase_toUpperCase (s : JStr) :
    toLowerCase (toUpperCase s) = toLowerCase s := by
  unfold toLowerCase toUpperCase
  rw [List.map_map]
  exact List.map_congr_left fun c _ => lowerCode_upperCode c

theorem lookupKey_eq_none {k : JStr} :
    ∀ {m : UsersMap}, lookupKey k m = none ↔ ∀ kv ∈ m, kv.1 ≠ k
  | [] => by simp [lookupKey]
  | kv :: rest => by
    by_cases h : kv.1 = k
    · simp [lookupKey, h]
    · simp only [lookupKey, if_neg h, List.mem_cons]
      rw [lookupKey_eq_none]
      constructor
      · rintro hall x (rfl | hx)
        · exact h
        · exact hall x hx
      · intro hall x hx
        exact hall x (Or.inr hx)

theorem sortKey_eq_postDate {p : PostRec} (h : (sortKey p).isSome) :
    sortKey p = some (postDate p) := by
  rcases hd : p.date with _ | e <;> rcases hw : p.dateWrapped
  all_goals simp [sortKey, postDate, hd, hw] at h ⊢

theorem sortBefore_eq_descByDate {a b : PostRec}
    (ha : (sortKey a).isSome) (hb : (sortKey b).isSome) :
    sortBefore a b = descByDate a b := by
  unfold sortBefore
  rw [sortKey_eq_postDate ha, sortKey_eq_postDate hb]
  rfl

theorem descByDate_trans (a b c : PostRec) :
    descByDate a b → descByDate b c → descByDate a c := by
  simp only [descByDate, decide_eq_true_eq]
  omega

theorem descByDate_total (a b : PostRec) : descByDate a b || descByDate b a := by
  simp only [descByDate, Bool.or_eq_true, decide_eq_true_eq]
  omega

theorem sortPosts_eq_descSort {l : List PostRec}
    (h : ∀ p ∈ l, (sortKey p).isSome) :
    sortPosts l = l.mergeSort descByDate := by
  have hmap := @List.map_mergeSort PostRec PostRec sortBefore descByDate id l
    (fun a ha b hb => sortBefore_eq_descByDate (h a ha) (h b hb))
  simpa using hmap

theorem sortPosts_perm (l : List PostRec) : List.Perm (sortPosts l) l :=
  List.mergeSort_perm l sortBefore

theorem sortPosts_pairwise {l : List PostRec}
    (hw : ∀ p ∈ l, (sortKey p).isSome) :
    (sortPosts l).Pairwise fun a b => postDate b ≤ postDate a := by
  rw [sortPosts_eq_descSort hw]
  have h := List.sorted_mergeSort descByDate_trans descByDate_total l
  exact h.imp fun hab => by simpa [descByDate] using hab

theorem sortPosts_length (l : List PostRec) : (sortPosts l).length = l.length :=
  List.length_mergeSort l

theorem sortPosts_cexPosts : sortPosts cexPosts = cexPosts := by
  simp [sortPosts, cexPosts, List.mergeSort, List.splitInTwo, List.merge,
    sortBefore, sortKey, cexCreatedPost, cexWrappedPost]

/-! ## The claims -/

/-- C7: for every Post record, the `Post.timestamp` resolver returns the
post's stored date as a numeric epoch value when the post has a date, and
an absent value when it has no date. -/
theorem timestamp_spec (post : PostRec) :
    (∀ t : Int, post.date = some t → timestampResolve post = some t) ∧
    (post.date = none → timestampResolve post = none) := by
  constructor
  · intro t ht
    simp [timestampResolve, ht]
  · intro h
    simp [timestampResolve, h]

/-- C7 witness: on the concrete post whose date is epoch 5, the resolver
returns epoch 5. -/
theorem timestamp_witness : timestampResolve demoCreatedPost = some 5 :=
  (timestamp_spec demoCreatedPost).1 5 rfl

/-- C6 counterexample: a record that carries a `title` property holding
the empty string is not classified as variant Post — the dispatch tests
JS truthiness of the value, not presence of the field, so this record
falls through to an absent result. -/
theorem resolveType_title_counterexample :
    (Candidate.mk (JSVal.str []) JSVal.undef).title ≠ JSVal.undef ∧
    resolveType (Candidate.mk (JSVal.str []) JSVal.undef) ≠ some HasAuthorType.post ∧
    resolveType (Candidate.mk (JSVal.str []) JSVal.undef) = none := by
  refine ⟨by decide, by decide, by decide⟩

/-- C6 (amended): `HasAuthor` dispatch classifies by JS truthiness of the
fields, in fixed order: a truthy `title` value classifies the record as
Post; otherwise a truthy `replies` value classifies it as Comment;
otherwise dispatch resolves to an absent value. -/
theorem resolveType_spec (obj : Candidate) :
    (resolveType obj = some HasAuthorType.post ↔ truthy obj.title = true) ∧
    (resolveType obj = some HasAuthorType.comment ↔
      (truthy obj.title = false ∧ truthy obj.replies = true)) ∧
    (resolveType obj = none ↔
      (truthy obj.title = false ∧ truthy obj.replies = false)) := by
  unfold resolveType
  cases h1 : truthy obj.title <;> cases h2 : truthy obj.replies <;> simp

/-- C6 witness: the amended dispatch rule evaluated on a record with a
non-empty `title` string and no `replies`. -/
theorem resolveType_spec_witness :
    (resolveType (Candidate.mk (JSVal.str [104]) JSVal.undef) = some HasAuthorType.post ↔
      truthy (JSVal.str [104]) = true) ∧
    (resolveType (Candidate.mk (JSVal.str [104]) JSVal.undef) = some HasAuthorType.comment ↔
      (truthy (JSVal.str [104]) = false ∧ truthy JSVal.undef = true)) ∧
    (resolveType (Candidate.mk (JSVal.str [104]) JSVal.undef) = none ↔
      (truthy (JSVal.str [104]) = false ∧ truthy JSVal.undef = false)) :=
  resolveType_spec (Candidate.mk (JSVal.str [104]) JSVal.undef)

/-- C9: `user(U)` and `user(upper(U))` resolve to the identical record for
every username string U (lookup lower-cases its argument), and `user`
resolves to an absent value exactly when no User is keyed by the
lower-cased username. -/
theorem user_spec :
    (∀ (users : UsersMap) (U : JStr),
        userResolve users U = userResolve users (toUpperCase U)) ∧
    (∀ (users : UsersMap) (U : JStr),
        userResolve users U = none ↔ ∀ kv ∈ users, kv.1 ≠ toLowerCase U) := by
  constructor
  · intro users U
    unfold userResolve
    rw [toLowerCase_toUpperCase]
  · intro users U
    exact lookupKey_eq_none

/-- C9 witness: looking `alice` up lower-case and upper-case over the
demo Users store gives the identical result. -/
theorem user_spec_witness :
    userResolve demoUsers [97, 108, 105, 99, 101]
      = userResolve demoUsers (toUpperCase [97, 108, 105, 99, 101]) :=
  user_spec.1 demoUsers [97, 108, 105, 99, 101]

/-- C8: `Post.comments(limit)` returns the Comments whose postId equals
the post's id in original collection order; a supplied non-negative limit
truncates to the first `limit` elements (with no error when the limit
exceeds the available count), and an absent or negative limit returns the
full filtered set. -/
theorem comments_spec (cl : List CommentRec) (post : PostRec) :
    (∀ limit, ∀ c ∈ commentsResolve cl post limit, c.postId = post.id) ∧
    (∀ limit, List.Sublist (commentsResolve cl post limit) cl) ∧
    (commentsResolve cl post none = cl.filter fun c => post.id == c.postId) ∧
    (∀ l : Int, 0 ≤ l → commentsResolve cl post (some l)
        = (cl.filter fun c => post.id == c.postId).take l.toNat) ∧
    (∀ l : Int, 0 ≤ l → (cl.filter fun c => post.id == c.postId).length ≤ l.toNat →
        commentsResolve cl post (some l) = cl.filter fun c => post.id == c.postId) ∧
    (∀ l : Int, l < 0 → commentsResolve cl post (some l)
        = cl.filter fun c => post.id == c.postId) := by
  have hsubf : ∀ limit, List.Sublist (commentsResolve cl post limit)
      (cl.filter fun c => post.id == c.postId) := by
    intro limit
    match limit with
    | none => exact List.Sublist.refl _
    | some l =>
      show List.Sublist (if 0 ≤ l then _ else _) _
      split
      · rw [jsSliceTo]
        split <;> exact List.take_sublist _ _
      · exact List.Sublist.refl _
  have hpos : ∀ l : Int, 0 ≤ l → commentsResolve cl post (some l)
      = (cl.filter fun c => post.id == c.postId).take l.toNat := by
    intro l hl
    show (if 0 ≤ l then jsSliceTo _ l else _) = _
    rw [if_pos hl, jsSliceTo, if_neg (by omega)]
  refine ⟨?_, ?_, rfl, hpos, ?_, ?_⟩
  · intro limit c hc
    have hcf := (hsubf limit).subset hc
    exact (beq_iff_eq.mp (List.mem_filter.mp hcf).2).symm
  · intro limit
    exact (hsubf limit).trans (List.filter_sublist cl)
  · intro l hl hlen
    rw [hpos l hl, List.take_of_length_le hlen]
  · intro l hl
    show (if 0 ≤ l then _ else _) = _
    rw [if_neg (by omega)]

/-- C8 witness: over the demo Comments collection, `limit = 2` on post 1
returns the first two matching comments, evaluated concretely. -/
theorem comments_spec_witness :
    commentsResolve demoComments demoCreatedPost (some 2)
      = (demoComments.filter fun c => demoCreatedPost.id == c.postId).take (2 : Int).toNat :=
  (comments_spec demoComments demoCreatedPost).2.2.2.1 2 (by decide)

/-- C1 counterexample: over `cexPosts` the program's `latestPost()`
returns the `createPost`-created post, whose stored date (epoch 0) is not
maximal — the fixture post's date 9999 is — because the created post's
comparator key is `NaN`, not its date; `recentPosts(2)` is likewise not
in descending-date order. On this two-element collection the comparator
is consistent (both directions return `+0`), so the stable result is
fully determined by ECMAScript. -/
theorem latestPost_created_counterexample :
    (latestPostResolve cexPosts).1 = some cexCreatedPost ∧
    postDate cexCreatedPost < postDate cexWrappedPost ∧
    cexWrappedPost ∈ cexPosts ∧
    ¬ ((recentPostsResolve cexPosts 2).1.Pairwise
        fun a b => postDate b ≤ postDate a) := by
  refine ⟨?_, by decide, by decide, ?_⟩
  · show (sortPosts cexPosts).head? = some cexCreatedPost
    rw [sortPosts_cexPosts]
    rfl
  · show ¬ (jsSliceTo (sortPosts cexPosts) 2).Pairwise _
    rw [sortPosts_cexPosts]
    decide

/-- C1 (amended): over collections whose posts all carry numeric sort
keys (the loader's wrapped dates), `latestPost()` returns the Post whose
date is maximum (one exists whenever the collection is non-empty), and
`recentPosts(count)` with `count ≥ 0` returns the first `count` posts in
descending-date order, fewer when the collection is smaller; on the
concrete scenario with fixture dates 2021-01-01, 2023-05-01, 2022-06-01
(ids 1, 2, 3), `recentPosts(2)` returns ids 2, 3 in that order. Posts
created by `createPost` carry a `Date`-valued property whose comparator
key is `NaN` and are excluded (see the counterexample). -/
theorem latestPost_recentPosts_spec :
    (∀ (posts : List PostRec) (p : PostRec),
        (∀ q ∈ posts, (sortKey q).isSome) →
        (latestPostResolve posts).1 = some p →
        p ∈ posts ∧ ∀ q ∈ posts, postDate q ≤ postDate p) ∧
    (∀ posts : List PostRec, posts ≠ [] →
        ∃ p, (latestPostResolve posts).1 = some p) ∧
    (∀ (posts : List PostRec) (count : Int),
        (∀ q ∈ posts, (sortKey q).isSome) → 0 ≤ count →
        (recentPostsResolve posts count).1 = (sortPosts posts).take count.toNat ∧
        ((recentPostsResolve posts count).1).length = min count.toNat posts.length ∧
        ((recentPostsResolve posts count).1).Pairwise
          (fun a b => postDate b ≤ postDate a)) ∧
    (recentPostsResolve scenarioPosts 2).1.map PostRec.id = [2, 3] := by
  refine ⟨?_, ?_, ?_, ?_⟩
  · intro posts p hw hp
    have hperm := sortPosts_perm posts
    have hsort := sortPosts_pairwise hw
    have hp2 : (sortPosts posts).head? = some p := hp
    rcases hs : sortPosts posts with _ | ⟨a, t⟩
    · rw [hs] at hp2
      exact absurd hp2 (by simp)
    · rw [hs] at hp2 hperm hsort
      simp only [List.head?_cons, Option.some.injEq] at hp2
      subst hp2
      constructor
      · exact hperm.mem_iff.mp (List.mem_cons_self a t)
      · intro q hq
        have hq2 : q ∈ a :: t := hperm.mem_iff.mpr hq
        rcases List.mem_cons.mp hq2 with rfl | hq3
        · exact le_refl _
        · exact (List.pairwise_cons.mp hsort).1 q hq3
  · intro posts hne
    rcases hs : sortPosts posts with _ | ⟨a, t⟩
    · have hperm := sortPosts_perm posts
      rw [hs] at hperm
      exact absurd hperm.symm.eq_nil hne
    · refine ⟨a, ?_⟩
      show (sortPosts posts).head? = some a
      rw [hs]
      rfl
  · intro posts count hw h0
    refine ⟨?_, ?_, ?_⟩
    · show jsSliceTo (sortPosts posts) count = _
      rw [jsSliceTo, if_neg (by omega)]
    · show (jsSliceTo (sortPosts posts) count).length = _
      rw [jsSliceTo, if_neg (by omega), List.length_take, sortPosts_length]
    · show (jsSliceTo (sortPosts posts) count).Pairwise _
      rw [jsSliceTo, if_neg (by omega)]
      exact List.Pairwise.sublist (List.take_sublist _ _) (sortPosts_pairwise hw)
  · simp [recentPostsResolve, sortPosts, scenarioPosts, List.mergeSort,
      List.splitInTwo, List.merge, sortBefore, sortKey, jsSliceTo]

/-- C1 witness: the general `recentPosts` characterisation instantiated on
the concrete scenario collection (all dates wrapped) with `count = 2`. -/
theorem latestPost_recentPosts_witness :
    (recentPostsResolve scenarioPosts 2).1 = (sortPosts scenarioPosts).take (2 : Int).toNat ∧
    ((recentPostsResolve scenarioPosts 2).1).length = min (2 : Int).toNat scenarioPosts.length ∧
    ((recentPostsResolve scenarioPosts 2).1).Pairwise
      (fun a b => postDate b ≤ postDate a) :=
  latestPost_recentPosts_spec.2.2.1 scenarioPosts 2 (by decide) (by decide)

/-- C3 counterexample: after `latestPost()` over `cexPosts` the live
collection is unchanged — the `createPost`-created post's comparator key
is `NaN`, the two-element comparator is consistent with the single pair
comparing "equal", and the mandated stable sort keeps the original
order — so the post-call order is not the descending-date order: the
date-9999 post stays behind the date-0 post. -/
theorem sort_side_effect_counterexample :
    (latestPostResolve cexPosts).2 = cexPosts ∧
    ¬ ((latestPostResolve cexPosts).2.Pairwise
        fun a b => postDate b ≤ postDate a) := by
  constructor
  · exact sortPosts_cexPosts
  · show ¬ (sortPosts cexPosts).Pairwise _
    rw [sortPosts_cexPosts]
    decide

/-- C3 (amended): `latestPost()` and `recentPosts(count)` permanently
reorder the live Posts collection: after the call it is a permutation of
the prior collection in which no individual Post record is changed, and
over collections whose posts all carry numeric sort keys the resulting
order is the descending-date order. With a `createPost`-created post
present the comparator yields `NaN` and the post-call order need not be
descending by date (see the counterexample). -/
theorem sort_side_effect_spec (posts : List PostRec) :
    List.Perm (latestPostResolve posts).2 posts ∧
    (∀ count : Int, List.Perm (recentPostsResolve posts count).2 posts) ∧
    ((∀ q ∈ posts, (sortKey q).isSome) →
      (latestPostResolve posts).2 = sortPosts posts ∧
      (∀ count : Int, (recentPostsResolve posts count).2 = sortPosts posts) ∧
      (sortPosts posts).Pairwise fun a b => postDate b ≤ postDate a) :=
  ⟨sortPosts_perm posts, fun _ => sortPosts_perm posts,
    fun hw => ⟨rfl, fun _ => rfl, sortPosts_pairwise hw⟩⟩

/-- C3 witness: on the scenario collection (all keys numeric) the
post-call order is descending by date. -/
theorem sort_side_effect_witness :
    (sortPosts scenarioPosts).Pairwise (fun a b => postDate b ≤ postDate a) :=
  ((sort_side_effect_spec scenarioPosts).2.2 (by decide)).2.2

/-- C2: each mutation is atomic — `createPost` throws exactly when the
author does not resolve case-insensitively to an existing User, and
`createUser` throws exactly when the lower-cased username already keys a
User; a throwing call leaves the Data Store untouched, and a successful
call makes exactly one append (`createPost`) or one insert
(`createUser`), leaving the other collection unchanged. -/
theorem mutation_atomicity :
    (∀ (st : Store) (a : PostArgs) (now : Int),
        ((∃ e, (createPost st a now).1 = Except.error e) ↔
          lookupKey (toLowerCase a.author) st.users = none) ∧
        (∀ e, (createPost st a now).1 = Except.error e →
          (createPost st a now).2 = st) ∧
        (∀ p, (createPost st a now).1 = Except.ok p →
          (createPost st a now).2.posts = st.posts ++ [p] ∧
          (createPost st a now).2.users = st.users)) ∧
    (∀ (st : Store) (a : UserArgs),
        ((∃ e, (createUser st a).1 = Except.error e) ↔
          ∃ u, lookupKey (toLowerCase a.username) st.users = some u) ∧
        (∀ e, (createUser st a).1 = Except.error e → (createUser st a).2 = st) ∧
        (∀ u, (createUser st a).1 = Except.ok u →
          (createUser st a).2.users = st.users ++ [(toLowerCase a.username, u)] ∧
          (createUser st a).2.posts = st.posts)) := by
  constructor
  · intro st a now
    rcases h : lookupKey (toLowerCase a.author) st.users with _ | u <;>
      simp [createPost, h]
  · intro st a
    rcases h : lookupKey (toLowerCase a.username) st.users with _ | u <;>
      simp [createUser, h]

/-- C2 witness: re-registering `Alice` over the demo store throws exactly
because `alice` already keys a user. -/
theorem mutation_atomicity_witness :
    (∃ e, (createUser (Store.mk [] demoUsers) demoUserArgs).1 = Except.error e) ↔
      ∃ u, lookupKey (toLowerCase demoUserArgs.username) demoUsers = some u :=
  (mutation_atomicity.2 (Store.mk [] demoUsers) demoUserArgs).1

/-- Auxiliary to C4: a run of `createPost` calls over the fixed Users
store appends, to any starting `PostsList`, one post per call whose id
continues the `count + 1` sequence and whose `userId` comes from the
case-insensitive author lookup. -/
theorem createPostsSeq_split (users : UsersMap) (calls : List (PostArgs × Int)) :
    ∀ acc ps : List PostRec, createPostsSeq users calls acc = some ps →
      ∃ newPs, ps = acc ++ newPs ∧
        newPs.map PostRec.id
          = (List.range calls.length).map (fun i : Nat => (acc.length : Int) + (i : Int) + 1) ∧
        ∀ pr ∈ calls.zip newPs, ∃ u,
          lookupKey (toLowerCase pr.1.1.author) users = some u ∧
          pr.2.userId = u.id := by
  induction calls with
  | nil =>
    intro acc ps h
    simp only [createPostsSeq, Option.some.injEq] at h
    subst h
    exact ⟨[], by simp, by simp, by simp⟩
  | cons c rest ih =>
    intro acc ps h
    obtain ⟨a, t⟩ := c
    rcases hl : lookupKey (toLowerCase a.author) users with _ | u
    · rw [createPostsSeq] at h
      simp [createPost, hl] at h
    · rw [createPostsSeq] at h
      simp only [createPost, hl] at h
      obtain ⟨newPs, hps, hids, hzip⟩ := ih _ ps h
      refine ⟨{ id := (acc.length : Int) + 1, userId := u.id, title := a.title
                body := a.body, category := a.category, likeCount := none
                date := some t, dateWrapped := false } :: newPs, ?_, ?_, ?_⟩
      · rw [hps, List.append_assoc, List.singleton_append]
      · simp only [List.map_cons, List.length_cons]
        rw [List.range_succ_eq_map, List.map_cons, List.map_map, hids]
        refine List.cons_eq_cons.mpr ⟨?_, ?_⟩
        · simp
        · refine List.map_congr_left fun i hi => ?_
          simp only [Function.comp_apply, List.length_append, List.length_cons,
            List.length_nil]
          push_cast
          ring
      · intro pr hpr
        rw [List.zip_cons_cons, List.mem_cons] at hpr
        rcases hpr with rfl | hpr
        · exact ⟨u, hl, rfl⟩
        · exact hzip pr hpr

/-- C4: after N consecutive successful `createPost` calls starting from
an empty Posts collection, the assigned ids are exactly 1..N in call
order, and each created post's `userId` is the id of the User resolved
case-insensitively from its `author` argument. -/
theorem createPost_sequence_spec (users : UsersMap) (calls : List (PostArgs × Int))
    (ps : List PostRec) (h : createPostsSeq users calls [] = some ps) :
    ps.map PostRec.id = (List.range calls.length).map (fun i : Nat => (i : Int) + 1) ∧
    ps.length = calls.length ∧
    ∀ pr ∈ calls.zip ps, ∃ u,
      lookupKey (toLowerCase pr.1.1.author) users = some u ∧
      pr.2.userId = u.id := by
  obtain ⟨newPs, hps, hids, hzip⟩ := createPostsSeq_split users calls [] ps h
  simp only [List.nil_append] at hps
  subst hps
  refine ⟨?_, ?_, hzip⟩
  · rw [hids]
    exact List.map_congr_left fun i hi => by simp
  · have hlen := congrArg List.length hids
    simpa using hlen

/-- C4 witness: one successful `createPost` call over the demo store
assigns id 1 and `userId` from the `alice` lookup. -/
theorem createPost_sequence_witness :
    [demoCreatedPost].map PostRec.id = (List.range 1).map (fun i : Nat => (i : Int) + 1) ∧
    ([demoCreatedPost] : List PostRec).length = 1 ∧
    ∀ pr ∈ [((demoPostArgs, (5 : Int)), demoCreatedPost)], ∃ u,
      lookupKey (toLowerCase pr.1.1.author) demoUsers = some u ∧
      pr.2.userId = u.id :=
  createPost_sequence_spec demoUsers [(demoPostArgs, 5)] [demoCreatedPost] (by decide)

/-- C5: every key of the Users mapping being the lower-cased username of
the record it stores is preserved by any sequence of `createUser` and
`createPost` calls. -/
theorem users_well_keyed_invariant (calls : List MutationCall) :
    ∀ st : Store, usersWellKeyed st → usersWellKeyed (applyMutations st calls) := by
  induction calls with
  | nil =>
    intro st h
    exact h
  | cons c rest ih =>
    intro st h
    rw [applyMutations]
    refine ih _ ?_
    cases c with
    | mkPost a t =>
      rcases hl : lookupKey (toLowerCase a.author) st.users with _ | u <;>
        · intro kv hkv
          apply h
          simpa [applyMutation, createPost, hl] using hkv
    | mkUser a =>
      rcases hl : lookupKey (toLowerCase a.username) st.users with _ | u
      · intro kv hkv
        simp only [applyMutation, createUser, hl] at hkv
        rcases List.mem_append.mp hkv with hkv2 | hkv2
        · exact h kv hkv2
        · rcases List.mem_singleton.mp hkv2 with rfl
          rfl
      · intro kv hkv
        apply h
        simpa [applyMutation, createUser, hl] using hkv

/-- C5 witness: the invariant holds after re-registering `Alice` (which
throws) and then creating a post over the demo store. -/
theorem users_well_keyed_witness :
    usersWellKeyed (applyMutations (Store.mk [] demoUsers)
      [MutationCall.mkUser demoUserArgs, MutationCall.mkPost demoPostArgs 7]) :=
  users_well_keyed_invariant _ (Store.mk [] demoUsers)
    (by unfold usersWellKeyed; decide)

/-- C10 counterexample: over a one-post collection, `recentPosts(-1)`
returns the empty list, though the claim says a negative count never
yields an empty result. -/
theorem recentPosts_negative_counterexample :
    (recentPostsResolve [demoCreatedPost] (-1)).1 = [] := by
  simp [recentPostsResolve, sortPosts, List.mergeSort, jsSliceTo]

/-- C10 (amended): for every negative count, `recentPosts(count)` drops
the last `min(|count|, length)` elements of the post-call collection: the
result holds `length − min(|count|, length)` posts — empty when
`|count| ≥ length`, strictly fewer than the collection when it is
non-empty, non-empty when `|count| < length` — and over collections whose
posts all carry numeric sort keys it is exactly the descending-date
order minus its last `min(|count|, length)` elements. -/
theorem recentPosts_negative_spec (posts : List PostRec) (count : Int)
    (h : count < 0) :
    ((recentPostsResolve posts count).1).length
      = posts.length - (-count).toNat ∧
    (posts.length ≤ (-count).toNat → (recentPostsResolve posts count).1 = []) ∧
    (posts ≠ [] →
      ((recentPostsResolve posts count).1).length < posts.length) ∧
    ((-count).toNat < posts.length → (recentPostsResolve posts count).1 ≠ []) ∧
    ((∀ q ∈ posts, (sortKey q).isSome) →
      (recentPostsResolve posts count).1
        = (sortPosts posts).take (posts.length - (-count).toNat) ∧
      ((recentPostsResolve posts count).1).Pairwise
        (fun a b => postDate b ≤ postDate a)) := by
  have heq : (recentPostsResolve posts count).1
      = (sortPosts posts).take (posts.length - (-count).toNat) := by
    show jsSliceTo (sortPosts posts) count = _
    rw [jsSliceTo, if_pos h, sortPosts_length]
  have hlen : ((recentPostsResolve posts count).1).length
      = posts.length - (-count).toNat := by
    rw [heq, List.length_take, sortPosts_length]
    omega
  refine ⟨hlen, ?_, ?_, ?_, ?_⟩
  · intro hge
    rw [heq]
    have h0 : posts.length - (-count).toNat = 0 := by omega
    rw [h0, List.take_zero]
  · intro hne
    rw [hlen]
    have h2 : posts.length ≠ 0 := fun h0 => hne (List.length_eq_zero.mp h0)
    omega
  · intro hlt hcontra
    have h2 := congrArg List.length hcontra
    rw [hlen] at h2
    simp at h2
    omega
  · intro hw
    refine ⟨heq, ?_⟩
    rw [heq]
    exact List.Pairwise.sublist (List.take_sublist _ _) (sortPosts_pairwise hw)

/-- C10 witness: the amended characterisation instantiated on the
scenario collection (all keys numeric) with `count = -1`: the first two
of the three date-descending posts come back. -/
theorem recentPosts_negative_witness :
    (recentPostsResolve scenarioPosts (-1)).1
      = (sortPosts scenarioPosts).take (scenarioPosts.length - (-(-1 : Int)).toNat) ∧
    ((recentPostsResolve scenarioPosts (-1)).1).Pairwise
      (fun a b => postDate b ≤ postDate a) :=
  (recentPosts_negative_spec scenarioPosts (-1) (by decide)).2.2.2.2 (by decide)
